import Mathlib

/-!
Verification of the near-duplicate detection core of `dup-doc-hunter`.

The Python modules under `core/` are shallowly embedded:

* `core/document.py` — the `Document` entity, the tokenizers
  (`split` / `split_sentences` / `split_by_jieba_v2`) and MinHash signature
  generation (`generate_minhash_signature`);
* `core/jaccard_calculator.py` — `JaccardCalculator.calculate_jaccard_similarity`
  and `JaccardCalculator.filter_by_jaccard_similarity`;
* `core/milvus_minhash_lsh_service.py` — the post-processing that
  `MilvusMinHashLSHService.search` applies to the hits returned by the backend.

Machine integers are embedded as `Nat` with explicit reductions `% 2 ^ 64`
and `% 256`; byte strings are `List Nat`; Python `float` similarity scores are
embedded as exact rationals `ℚ`; fallible code returns `Option`.
External collaborators (the `datasketch` MinHash hash family, the `jieba`
segmenter, the Milvus backend) are not part of this repository and enter the
embedding as explicit parameters, modelled from the spec where it pins their
behaviour down.
-/

namespace DupDocHunter

/-! ### Byte-level layout of MinHash signatures -/

/-- Big-endian serialization of one unsigned 64-bit value into 8 bytes, as
performed by `hashvalues.astype(">u8").tobytes()` in
`Document.generate_minhash_signature` (`core/document.py`, line 40). -/
def beBytes64 (v : Nat) : List Nat :=
  [v / 2 ^ 56 % 256, v / 2 ^ 48 % 256, v / 2 ^ 40 % 256, v / 2 ^ 32 % 256,
   v / 2 ^ 24 % 256, v / 2 ^ 16 % 256, v / 2 ^ 8 % 256, v % 256]

/-- Big-endian value of a byte list (first byte is most significant). -/
def beVal (bytes : List Nat) : Nat :=
  bytes.foldl (fun acc b => acc * 256 + b) 0

/-- Little-endian value of a byte list (first byte is least significant).
`np.frombuffer(sig, dtype=np.uint64)` in `core/jaccard_calculator.py` reads
the buffer in the platform's native byte order, which is little-endian on the
x86-64 / aarch64 machines the code runs on. -/
def leVal (bytes : List Nat) : Nat :=
  bytes.foldr (fun b acc => acc * 256 + b) 0

/-- Split a byte list into consecutive 8-byte groups and read each group as a
little-endian unsigned 64-bit value, as `np.frombuffer(sig, dtype=np.uint64)`
does on a little-endian platform.  `np.frombuffer` raises on a buffer whose
length is not a multiple of 8; the caller checks the length first, so the
final partial-chunk clause is never reached on valid input. -/
def decodeSigLE : List Nat → List Nat
  | b0 :: b1 :: b2 :: b3 :: b4 :: b5 :: b6 :: b7 :: rest =>
    leVal [b0, b1, b2, b3, b4, b5, b6, b7] :: decodeSigLE rest
  | [] => []
  | leftover => [leVal leftover]

/-- Split a byte list into consecutive 8-byte groups and read each group as a
big-endian unsigned 64-bit value — the inverse view of the `">u8"` layout the
signature generator writes. -/
def decodeSigBE : List Nat → List Nat
  | b0 :: b1 :: b2 :: b3 :: b4 :: b5 :: b6 :: b7 :: rest =>
    beVal [b0, b1, b2, b3, b4, b5, b6, b7] :: decodeSigBE rest
  | [] => []
  | leftover => [beVal leftover]

/-! ### Whitespace and the `Document.split` / `split_sentences` tokenizer -/

/-- Python `\s` / `str.strip()` whitespace, restricted to the ASCII whitespace
characters (CPython additionally treats rarer Unicode space characters as
whitespace; none of the inputs considered here contains them). -/
def isPySpace (c : Char) : Bool :=
  c == ' ' || c == '\t' || c == '\n' || c == '\r' || c == '\x0b' || c == '\x0c'

/-- Python `str.strip()`: drop leading and trailing whitespace. -/
def pyStrip (cs : List Char) : List Char :=
  ((cs.dropWhile isPySpace).reverse.dropWhile isPySpace).reverse

/-- The character class `[。！？；：，,;:\s]` of the `re.split` pattern in
`Document.split_sentences` (`core/document.py`, line 86). -/
def isSentDelimV1 (c : Char) : Bool :=
  c == '。' || c == '！' || c == '？' || c == '；' || c == '：' || c == '，' ||
    c == ',' || c == ';' || c == ':' || isPySpace c

/-- `re.split` with a pure lookbehind pattern `(?<=[...])` cuts the string
after every character of the class; the accumulator holds the current segment
reversed. -/
def splitAfterAux (p : Char → Bool) : List Char → List Char → List (List Char)
  | acc, [] => [acc.reverse]
  | acc, c :: rest =>
    if p c then (c :: acc).reverse :: splitAfterAux p [] rest
    else splitAfterAux p (c :: acc) rest

/-- `Document.split_sentences` (`core/document.py`, lines 75-87):
`re.split(r'(?<=[。！？；：，,;:\s])', text)`, then strip each piece and drop
the empty ones. -/
def Document.split_sentences (text : String) : List String :=
  ((splitAfterAux isSentDelimV1 [] text.toList).map
      (fun s => String.mk (pyStrip s))).filter (fun s => !s.isEmpty)

/-- `Document.split` (`core/document.py`, lines 61-73) just delegates to
`Document.split_sentences`. -/
def Document.split (text : String) : List String :=
  Document.split_sentences text

/-! ### MinHash signature generation -/

def UINT64_MAX : Nat := 2 ^ 64 - 1

/-- Modelled from the spec: the source (`core/document.py`, lines 25-40)
delegates hashing to the external `datasketch.MinHash` library, whose
internals are not part of this repository.  Following section 4.2 of the
spec, the hash family is an arbitrary parameter `h` (one function per
permutation index), with outputs reduced into the unsigned 64-bit range; each
hash function's state starts at the maximum representable 64-bit value and
keeps the running minimum over all tokens, each token being lower-cased
before hashing (`m.update(token.lower().encode("utf8"))`). -/
def minhashValue (h : Nat → String → Nat) (tokens : List String) (i : Nat) : Nat :=
  tokens.foldl (fun acc tok => min acc (h i tok.toLower % 2 ^ 64)) UINT64_MAX

/-- The vector of the `num_perm` per-function minima. -/
def minhashValues (h : Nat → String → Nat) (tokens : List String) (num_perm : Nat) :
    List Nat :=
  (List.range num_perm).map (minhashValue h tokens)

/-- `Document.generate_minhash_signature` (`core/document.py`, lines 25-40):
feed every token to the `num_perm` hash functions and serialize the minima as
concatenated big-endian unsigned 64-bit integers
(`m.hashvalues.astype(">u8").tobytes()`). -/
def Document.generate_minhash_signature (h : Nat → String → Nat)
    (tokens : List String) (num_perm : Nat) : List Nat :=
  (minhashValues h tokens num_perm).flatMap beBytes64

/-! ### The `Document` entity -/

structure Document where
  doc_id : Int
  doc_name : String
  minhash_signature : List Nat
  token_set : String
deriving DecidableEq

/-- `Document.from_text` (`core/document.py`, lines 42-59): tokenize the
content with `Document.split`, sign the tokens, and join the deduplicated
token set with single spaces (`" ".join(set(tokens))`; CPython iterates a
`set` in an unspecified hash-dependent order, modelled here by the
first-occurrence order `List.eraseDups`). -/
def Document.from_text (h : Nat → String → Nat) (doc_id : Int) (doc_name : String)
    (content : String) (num_perm : Nat) : Document :=
  let tokens := Document.split content
  let signature := Document.generate_minhash_signature h tokens num_perm
  let token_str := String.intercalate " " tokens.eraseDups
  ⟨doc_id, doc_name, signature, token_str⟩

/-! ### The `split_by_jieba_v2` Markdown tokenizer pipeline

`Document.split_by_jieba_v2` (`core/document.py`, lines 103-162) cleans
Markdown with a fixed cascade of regular-expression passes and then tokenizes
sentence by sentence.  Each pass is embedded below as a scanner over
`List Char`; scanners that restart after a replacement carry an explicit fuel
argument (initialized to the input length, an upper bound on the number of
scanning steps, since every step consumes at least one character). -/

/-- The backquote character, written by code so that the source file itself
contains no stray backquote. -/
def btick : Char := Char.ofNat 96

/-- The ASCII apostrophe character. -/
def apos : Char := Char.ofNat 39

/-- Python `str.splitlines()` restricted to the `\n`, `\r\n` and `\r` line
boundaries (CPython also breaks on rarer Unicode boundaries; the inputs
considered here contain only `\n`).  No trailing empty line is produced. -/
def splitlinesAux : List Char → List Char → List (List Char)
  | acc, [] => if acc.isEmpty then [] else [acc.reverse]
  | acc, '\r' :: '\n' :: rest => acc.reverse :: splitlinesAux [] rest
  | acc, '\r' :: rest => acc.reverse :: splitlinesAux [] rest
  | acc, '\n' :: rest => acc.reverse :: splitlinesAux [] rest
  | acc, c :: rest => splitlinesAux (c :: acc) rest

def splitlines (cs : List Char) : List (List Char) :=
  splitlinesAux [] cs

def dropSpaces (cs : List Char) : List Char :=
  cs.dropWhile isPySpace

/-- Consume one optional occurrence of `c` (the regex `c?`). -/
def dropOpt (c : Char) : List Char → List Char
  | [] => []
  | d :: rest => if d == c then rest else d :: rest

/-- The regex fragment `:?-{3,}:?` of the table-separator pattern. -/
def matchDashes (cs : List Char) : Option (List Char) :=
  let cs1 := dropOpt ':' cs
  if (cs1.takeWhile (· == '-')).length ≥ 3 then
    some (dropOpt ':' (cs1.dropWhile (· == '-')))
  else none

/-- One group `\|\s*:?-{3,}:?\s*` of the table-separator pattern. -/
def matchSepGroup : List Char → Option (List Char)
  | '|' :: rest =>
    match matchDashes (dropSpaces rest) with
    | some r => some (dropSpaces r)
    | none => none
  | _ => none

/-- One or more separator groups, greedily; when one more group cannot be
completed the scanner keeps the remainder reached so far (the only
backtracking the pattern needs, since a group consumes at least four
characters none of which can begin the `\|?\s*$` tail in any other way). -/
def matchSepGroups : Nat → List Char → Option (List Char)
  | 0, _ => none
  | fuel + 1, cs =>
    match matchSepGroup cs with
    | none => none
    | some r =>
      match matchSepGroups fuel r with
      | some r2 => some r2
      | none => some r

/-- The table-separator-row test
`re.compile(r'^\s*\|?\s*:?-{3,}:?\s*(\|\s*:?-{3,}:?\s*)+\|?\s*$').match(line)`
(`core/document.py`, line 117). -/
def isTableSepLine (cs : List Char) : Bool :=
  let r0 := dropSpaces (dropOpt '|' (dropSpaces cs))
  match matchDashes r0 with
  | none => false
  | some r1 =>
    match matchSepGroups (r1.length + 1) (dropSpaces r1) with
    | none => false
    | some r2 => (dropSpaces (dropOpt '|' r2)).isEmpty

/-- Python `str.strip('|')`: drop all leading and trailing pipe characters. -/
def stripPipes (cs : List Char) : List Char :=
  ((cs.dropWhile (· == '|')).reverse.dropWhile (· == '|')).reverse

/-- Python `str.split(sep)` for a single-character separator: split at every
occurrence, keeping empty pieces. -/
def splitOnChar (sep : Char) : List Char → List (List Char)
  | [] => [[]]
  | c :: rest =>
    if c == sep then [] :: splitOnChar sep rest
    else
      match splitOnChar sep rest with
      | [] => [[c]]
      | s :: ss => (c :: s) :: ss

/-- Python `sep.join(pieces)` for a single-character separator. -/
def joinSep (sep : Char) : List (List Char) → List Char
  | [] => []
  | [s] => s
  | s :: rest => s ++ sep :: joinSep sep rest

/-- The per-line Markdown-table handling of `split_by_jieba_v2`
(`core/document.py`, lines 118-127): a separator row is dropped; a line that
contains a pipe and whose stripped form starts with a pipe is replaced by its
stripped nonempty cells joined with single spaces (dropped when no cell
remains); every other line is kept unchanged. -/
def processLine (cs : List Char) : Option (List Char) :=
  if isTableSepLine cs then none
  else if cs.contains '|' && (pyStrip cs).head? == some '|' then
    let cells := ((splitOnChar '|' (stripPipes (pyStrip cs))).map pyStrip).filter
      (fun c => !c.isEmpty)
    if cells.isEmpty then none else some (joinSep ' ' cells)
  else some cs

/-- Scanner for the non-greedy fragment `(.*?)\]\(`: the minimal run of
non-newline characters up to the first `](`, returned together with the
remainder after the `](`. -/
def findCloseOpen : List Char → Option (List Char × List Char)
  | [] => none
  | c :: rest =>
    if c == '\n' then none
    else if c == ']' then
      match rest with
      | '(' :: rest2 => some ([], rest2)
      | _ =>
        match findCloseOpen rest with
        | some (content, after) => some (c :: content, after)
        | none => none
    else
      match findCloseOpen rest with
      | some (content, after) => some (c :: content, after)
      | none => none

/-- Scanner for the non-greedy fragment `.*?\)`: skip the minimal run of
non-newline characters up to the first `)`, returning the remainder. -/
def scanToCloseParen : List Char → Option (List Char)
  | [] => none
  | c :: rest =>
    if c == '\n' then none
    else if c == ')' then some rest
    else scanToCloseParen rest

/-- `re.sub(r'!\[(.*?)\]\(.*?\)', r'\1', text)` (`core/document.py`,
line 131): image syntax is replaced by its alt text; the replacement is not
rescanned. -/
def subImageAux : Nat → List Char → List Char
  | 0, cs => cs
  | fuel + 1, cs =>
    match cs with
    | [] => []
    | '!' :: '[' :: rest =>
      (match findCloseOpen rest with
       | some (alt, r1) =>
         match scanToCloseParen r1 with
         | some after => alt ++ subImageAux fuel after
         | none => '!' :: subImageAux fuel ('[' :: rest)
       | none => '!' :: subImageAux fuel ('[' :: rest))
    | c :: rest => c :: subImageAux fuel rest

def subImage (cs : List Char) : List Char :=
  subImageAux cs.length cs

/-- `re.sub(r'\[(.*?)\]\(.*?\)', r'\1', text)` (`core/document.py`,
line 132): link syntax is replaced by its text. -/
def subLinkAux : Nat → List Char → List Char
  | 0, cs => cs
  | fuel + 1, cs =>
    match cs with
    | [] => []
    | '[' :: rest =>
      (match findCloseOpen rest with
       | some (txt, r1) =>
         match scanToCloseParen r1 with
         | some after => txt ++ subLinkAux fuel after
         | none => '[' :: subLinkAux fuel rest
       | none => '[' :: subLinkAux fuel rest)
    | c :: rest => c :: subLinkAux fuel rest

def subLink (cs : List Char) : List Char :=
  subLinkAux cs.length cs

def isTripleBtick : List Char → Bool
  | a :: b :: c :: _ => a == btick && b == btick && c == btick
  | _ => false

/-- Find the first closing fence (three consecutive backquotes), returning
the remainder after it. -/
def findFence : List Char → Option (List Char)
  | a :: b :: c :: rest =>
    if a == btick && b == btick && c == btick then some rest
    else findFence (b :: c :: rest)
  | _ => none

/-- The fenced-code-block removal (`core/document.py`, line 133): with the
DOTALL flag, each non-greedy match from an opening to the next closing fence
is replaced by a single space. -/
def subFenceAux : Nat → List Char → List Char
  | 0, cs => cs
  | fuel + 1, cs =>
    match cs with
    | [] => []
    | a :: rest =>
      if isTripleBtick (a :: rest) then
        match findFence (rest.drop 2) with
        | some after => ' ' :: subFenceAux fuel after
        | none => a :: subFenceAux fuel rest
      else a :: subFenceAux fuel rest

def subFence (cs : List Char) : List Char :=
  subFenceAux cs.length cs

/-- The anchored fragment `\s*[-*+]\s+` of the list-marker pass
(`core/document.py`, line 134). -/
def matchListMarker (cs : List Char) : Option (List Char) :=
  match dropSpaces cs with
  | c :: rest =>
    if (c == '-' || c == '*' || c == '+') && !(rest.takeWhile isPySpace).isEmpty then
      some (rest.dropWhile isPySpace)
    else none
  | [] => none

/-- The anchored fragment `\s*\d+\.\s+` of the ordered-list pass
(`core/document.py`, line 135); `\d` is modelled by the ASCII digits. -/
def matchOrdered (cs : List Char) : Option (List Char) :=
  let r := dropSpaces cs
  if (r.takeWhile Char.isDigit).isEmpty then none
  else
    match r.dropWhile Char.isDigit with
    | '.' :: rest2 =>
      if (rest2.takeWhile isPySpace).isEmpty then none
      else some (rest2.dropWhile isPySpace)
    | _ => none

/-- The anchored fragment `\s*#{1,6}\s+` of the heading pass
(`core/document.py`, line 136). -/
def matchHeading (cs : List Char) : Option (List Char) :=
  let r := dropSpaces cs
  let k := (r.takeWhile (· == '#')).length
  if 1 ≤ k ∧ k ≤ 6 then
    let rest2 := r.dropWhile (· == '#')
    if (rest2.takeWhile isPySpace).isEmpty then none
    else some (rest2.dropWhile isPySpace)
  else none

/-- Driver for the three `re.sub(..., '', text, flags=re.M)` passes: a match
may only start at a line start of the original string (position 0 or right
after a newline); a replaced match is deleted, and the next position counts
as a line start exactly when the last character the match consumed was a
newline. -/
def subMultilineAux (m : List Char → Option (List Char)) :
    Nat → Bool → List Char → List Char
  | 0, _, cs => cs
  | fuel + 1, atStart, cs =>
    match cs with
    | [] => []
    | c :: rest =>
      if atStart then
        match m cs with
        | some after =>
          subMultilineAux m fuel
            ((cs.drop (cs.length - after.length - 1)).head? == some '\n') after
        | none => c :: subMultilineAux m fuel (c == '\n') rest
      else c :: subMultilineAux m fuel (c == '\n') rest

def subMultiline (m : List Char → Option (List Char)) (cs : List Char) : List Char :=
  subMultilineAux m cs.length true cs

/-- The character class of the decoration pass (`core/document.py`,
line 137): backquote, `*`, `_`, `~`, `>`. -/
def isDecoChar (c : Char) : Bool :=
  c == btick || c == '*' || c == '_' || c == '~' || c == '>'

/-- The decoration pass: each maximal run of decoration characters becomes a
single space. -/
def subDecoAux : Nat → List Char → List Char
  | 0, cs => cs
  | fuel + 1, cs =>
    match cs with
    | [] => []
    | c :: rest =>
      if isDecoChar c then ' ' :: subDecoAux fuel (rest.dropWhile isDecoChar)
      else c :: subDecoAux fuel rest

def subDeco (cs : List Char) : List Char :=
  subDecoAux cs.length cs

def isHorizWs (c : Char) : Bool :=
  c == ' ' || c == '\t'

/-- The whitespace-normalization pass `re.sub(r'[ \t]+', ' ', text)`
(`core/document.py`, line 138): each maximal run of spaces and tabs becomes
a single space. -/
def collapseWsAux : Nat → List Char → List Char
  | 0, cs => cs
  | fuel + 1, cs =>
    match cs with
    | [] => []
    | c :: rest =>
      if isHorizWs c then ' ' :: collapseWsAux fuel (rest.dropWhile isHorizWs)
      else c :: collapseWsAux fuel rest

def collapseWs (cs : List Char) : List Char :=
  collapseWsAux cs.length cs

/-- The character class `[。！？；：，,;:.!?]` of the sentence split in
`split_by_jieba_v2` (`core/document.py`, line 141). -/
def isSentDelimV2 (c : Char) : Bool :=
  c == '。' || c == '！' || c == '？' || c == '；' || c == '：' || c == '，' ||
    c == ',' || c == ';' || c == ':' || c == '.' || c == '!' || c == '?'

/-- `re.split(r'(?<=[。！？；：，,;:.!?])|\n+', text)`: the lookbehind
alternative cuts (keeping the delimiter at the end of the left piece) after
every class character, and each maximal run of newlines is a consumed
separator. -/
def splitSentV2Aux : Nat → List Char → List Char → List (List Char)
  | 0, acc, _ => [acc.reverse]
  | _, acc, [] => [acc.reverse]
  | fuel + 1, acc, c :: rest =>
    if c == '\n' then acc.reverse :: splitSentV2Aux fuel [] (rest.dropWhile (· == '\n'))
    else if isSentDelimV2 c then (c :: acc).reverse :: splitSentV2Aux fuel [] rest
    else splitSentV2Aux fuel (c :: acc) rest

def splitSentV2 (cs : List Char) : List (List Char) :=
  splitSentV2Aux cs.length [] cs

/-- One character of the CJK ideograph range `[一-鿿]`. -/
def isHan (c : Char) : Bool :=
  decide (0x4e00 ≤ c.toNat ∧ c.toNat ≤ 0x9fff)

def hasHan (cs : List Char) : Bool :=
  cs.any isHan

/-- `en_num_token_re.findall(s)` for the pattern
`[A-Za-z]+(?:'[A-Za-z]+)?|\d+(?:\.\d+)?|[一-鿿]`
(`core/document.py`, line 152): a Latin-letter run with at most one internal
apostrophe group, a digit run with at most one fractional group, or a single
CJK ideograph; unmatched characters are skipped. -/
def findall : Nat → List Char → List (List Char)
  | 0, _ => []
  | _, [] => []
  | fuel + 1, c :: rest =>
    if c.isAlpha then
      let run1 := (c :: rest).takeWhile Char.isAlpha
      let rest1 := (c :: rest).dropWhile Char.isAlpha
      match rest1 with
      | a :: d :: rest2 =>
        if a == apos && d.isAlpha then
          (run1 ++ a :: (d :: rest2).takeWhile Char.isAlpha) ::
            findall fuel ((d :: rest2).dropWhile Char.isAlpha)
        else run1 :: findall fuel rest1
      | _ => run1 :: findall fuel rest1
    else if c.isDigit then
      let run1 := (c :: rest).takeWhile Char.isDigit
      let rest1 := (c :: rest).dropWhile Char.isDigit
      match rest1 with
      | a :: d :: rest2 =>
        if a == '.' && d.isDigit then
          (run1 ++ a :: (d :: rest2).takeWhile Char.isDigit) ::
            findall fuel ((d :: rest2).dropWhile Char.isDigit)
        else run1 :: findall fuel rest1
      | _ => run1 :: findall fuel rest1
    else if isHan c then [c] :: findall fuel rest
    else findall fuel rest

/-- `Document.split_by_jieba_v2` (`core/document.py`, lines 103-162), the
full Markdown tokenization pipeline.  The `jieba.lcut` segmenter is an
external library and enters as the parameter `jieba_lcut` (modelled from the
spec as an arbitrary CJK-aware word segmenter); it is consulted only for
sentences containing a CJK ideograph, so the claims evaluated on pure
Latin-digit inputs are independent of it.  The dynamic `import jieba`
capability probe always succeeds in the repository's environment
(`use_jieba = True`). -/
def Document.split_by_jieba_v2 (jieba_lcut : String → List String) (text : String) :
    List String :=
  let lines := splitlines text.toList
  let out_lines := lines.filterMap processLine
  let t1 := joinSep '\n' out_lines
  let t2 := subImage t1
  let t3 := subLink t2
  let t4 := subFence t3
  let t5 := subMultiline matchListMarker t4
  let t6 := subMultiline matchOrdered t5
  let t7 := subMultiline matchHeading t6
  let t8 := subDeco t7
  let t9 := collapseWs t8
  let sentences := ((splitSentV2 t9).map pyStrip).filter (fun s => !s.isEmpty)
  let tokens := sentences.flatMap (fun s =>
    if hasHan s then
      (jieba_lcut (String.mk s)).filter (fun t => !(pyStrip t.toList).isEmpty)
    else (findall (s.length + 1) s).map String.mk)
  tokens.filter (fun t => !(pyStrip t.toList).isEmpty)

/-! ### The Jaccard calculator -/

namespace JaccardCalculator

/-- `JaccardCalculator.calculate_jaccard_similarity`
(`core/jaccard_calculator.py`, lines 13-24): decode both byte buffers as
arrays of unsigned 64-bit integers and return the size of the set
intersection divided by the size of the set union (`np.intersect1d` /
`np.union1d` have set semantics).  `none` models the two exceptions the
Python code can raise: `np.frombuffer` rejects a buffer whose length is not a
multiple of 8, and the division raises `ZeroDivisionError` when both decoded
arrays are empty.  No other check is performed. -/
def calculate_jaccard_similarity (sig1 sig2 : List Nat) : Option ℚ :=
  if sig1.length % 8 = 0 ∧ sig2.length % 8 = 0 then
    if ((decodeSigLE sig1).toFinset ∪ (decodeSigLE sig2).toFinset).card = 0 then none
    else
      some ((((decodeSigLE sig1).toFinset ∩ (decodeSigLE sig2).toFinset).card : ℚ) /
        (((decodeSigLE sig1).toFinset ∪ (decodeSigLE sig2).toFinset).card : ℚ))
  else none

/-- The document loop of `JaccardCalculator.filter_by_jaccard_similarity`
(`core/jaccard_calculator.py`, lines 38-45): keep, in input order, every
document whose similarity to the query signature strictly exceeds the
threshold; an exception while computing any similarity aborts the whole call
(`none`). -/
def filterDocs (sigQ : List Nat) (threshold : ℚ) : List Document → Option (List Document)
  | [] => some []
  | d :: rest =>
    match calculate_jaccard_similarity sigQ d.minhash_signature with
    | none => none
    | some s =>
      match filterDocs sigQ threshold rest with
      | none => none
      | some tail => some (if threshold < s then d :: tail else tail)

/-- `JaccardCalculator.filter_by_jaccard_similarity`
(`core/jaccard_calculator.py`, lines 26-45): sign the query text with the
calculator's configured `num_perm`, then filter the documents by strict
threshold comparison. -/
def filter_by_jaccard_similarity (h : Nat → String → Nat) (num_perm : Nat)
    (text_content : String) (documents : List Document) (threshold : ℚ) :
    Option (List Document) :=
  let input_tokens := Document.split text_content
  let input_signature := Document.generate_minhash_signature h input_tokens num_perm
  filterDocs input_signature threshold documents

end JaccardCalculator

/-! ### The Milvus MinHash LSH service -/

namespace MilvusMinHashLSHService

/-- Modelled from the spec: a hit returned by the external Milvus backend's
`client.search` call, carrying the fields the post-processing loop in
`MilvusMinHashLSHService.search` reads — `hit['distance']` and the requested
output fields `hit['entity']['doc_id', 'doc_name', 'token_set']`.  The
backend itself is out of scope; `search` is verified for an arbitrary hit
list. -/
structure Hit where
  distance : ℚ
  doc_id : Int
  doc_name : String
  token_set : String
deriving DecidableEq

/-- One entry of the list returned by `MilvusMinHashLSHService.search`
(`core/milvus_minhash_lsh_service.py`, lines 119-125). -/
structure SearchResult where
  similarity : ℚ
  distance : ℚ
  doc_id : Int
  doc_name : String
  token_set : String
deriving DecidableEq

/-- Round to the nearest integer, ties to even — the rounding rule of
Python's built-in `round`.  Python applies it to a binary `float`; the model
applies the ideal rule to the exact rational value. -/
def roundHalfEven (x : ℚ) : ℤ :=
  if x - ⌊x⌋ < 1 / 2 then ⌊x⌋
  else if 1 / 2 < x - ⌊x⌋ then ⌊x⌋ + 1
  else if ⌊x⌋ % 2 = 0 then ⌊x⌋ else ⌊x⌋ + 1

/-- Python `round(x, 3)`: round to 3 decimal places. -/
def round3 (x : ℚ) : ℚ :=
  (roundHalfEven (x * 1000) : ℚ) / 1000

/-- The dictionary built for one hit (`core/milvus_minhash_lsh_service.py`,
lines 119-125): `similarity` is the backend distance rounded to 3 decimal
places, `distance` keeps the raw backend value, and the entity fields are
copied through. -/
def mkResult (hit : Hit) : SearchResult :=
  ⟨round3 hit.distance, hit.distance, hit.doc_id, hit.doc_name, hit.token_set⟩

/-- The order used by `output.sort(key=lambda x: x["similarity"],
reverse=True)`: descending by the rounded `similarity` field. -/
def simGe (a b : SearchResult) : Prop :=
  b.similarity ≤ a.similarity

instance : DecidableRel simGe :=
  fun a b => inferInstanceAs (Decidable (b.similarity ≤ a.similarity))

instance : IsTotal SearchResult simGe :=
  ⟨fun a b => le_total b.similarity a.similarity⟩

instance : IsTrans SearchResult simGe :=
  ⟨fun _ _ _ h1 h2 => le_trans h2 h1⟩

/-- Descending order on the raw backend distance — not the key the code
sorts by; used to state that the ordering follows the rounded value. -/
def distGe (a b : SearchResult) : Prop :=
  b.distance ≤ a.distance

instance : DecidableRel distGe :=
  fun a b => inferInstanceAs (Decidable (b.distance ≤ a.distance))

/-- The post-processing of `MilvusMinHashLSHService.search`
(`core/milvus_minhash_lsh_service.py`, lines 116-129) on the hits the
backend returned: build one result dictionary per hit in arrival order, then
`output.sort(key=lambda x: x["similarity"], reverse=True)`.  Python's
`list.sort` is stable (equal keys keep their original order, also with
`reverse=True`); it is modelled by insertion sort over the total preorder
`simGe`, which computes the same list as any stable descending sort by the
`similarity` key. -/
def search (hits : List Hit) : List SearchResult :=
  List.insertionSort simGe (hits.map mkResult)

end MilvusMinHashLSHService

/-! ### Helper lemmas on the signature layout -/

theorem beBytes64_eq_cons (v : Nat) :
    beBytes64 v =
      v / 2 ^ 56 % 256 :: v / 2 ^ 48 % 256 :: v / 2 ^ 40 % 256 :: v / 2 ^ 32 % 256 ::
        v / 2 ^ 24 % 256 :: v / 2 ^ 16 % 256 :: v / 2 ^ 8 % 256 :: v % 256 :: [] :=
  rfl

theorem flatMap_beBytes64_length (vs : List Nat) :
    (vs.flatMap beBytes64).length = vs.length * 8 := by
  induction vs with
  | nil => rfl
  | cons v vs ih =>
    simp only [List.flatMap_cons, List.length_append, List.length_cons, ih,
      beBytes64_eq_cons, List.length_nil]
    ring

theorem decodeSigLE_flatMap (vs : List Nat) :
    decodeSigLE (vs.flatMap beBytes64) = vs.map (fun v => leVal (beBytes64 v)) := by
  induction vs with
  | nil => rfl
  | cons v vs ih =>
    have hstep : decodeSigLE ((v :: vs).flatMap beBytes64) =
        leVal (beBytes64 v) :: decodeSigLE (vs.flatMap beBytes64) := rfl
    rw [hstep, ih, List.map_cons]

theorem decodeSigBE_flatMap (vs : List Nat) :
    decodeSigBE (vs.flatMap beBytes64) = vs.map (fun v => beVal (beBytes64 v)) := by
  induction vs with
  | nil => rfl
  | cons v vs ih =>
    have hstep : decodeSigBE ((v :: vs).flatMap beBytes64) =
        beVal (beBytes64 v) :: decodeSigBE (vs.flatMap beBytes64) := rfl
    rw [hstep, ih, List.map_cons]

theorem drop_eight_flatMap (v : Nat) (tail : List Nat) :
    (beBytes64 v ++ tail).drop 8 = tail :=
  rfl

theorem flatMap_beBytes64_segment (vs : List Nat) :
    ∀ i, i < vs.length →
      ((vs.flatMap beBytes64).drop (8 * i)).take 8 = beBytes64 (vs.getD i 0) := by
  induction vs with
  | nil => intro i hi; simp at hi
  | cons v vs ih =>
    intro i hi
    cases i with
    | zero => rfl
    | succ j =>
      have hstep : (8 : Nat) * (j + 1) = 8 + 8 * j := by ring
      rw [hstep, ← List.drop_drop]
      rw [show ((v :: vs).flatMap beBytes64) = beBytes64 v ++ vs.flatMap beBytes64 from rfl]
      rw [drop_eight_flatMap]
      exact ih j (by simpa using hi)

theorem minhashValues_length (h : Nat → String → Nat) (tokens : List String)
    (n : Nat) : (minhashValues h tokens n).length = n := by
  simp [minhashValues]

theorem generate_minhash_signature_length (h : Nat → String → Nat)
    (tokens : List String) (n : Nat) :
    (Document.generate_minhash_signature h tokens n).length = n * 8 := by
  rw [Document.generate_minhash_signature, flatMap_beBytes64_length, minhashValues_length]

theorem foldl_min_lt (h : Nat → String → Nat) (i : Nat) :
    ∀ (l : List String) (acc : Nat), acc < 2 ^ 64 →
      l.foldl (fun a tok => min a (h i tok.toLower % 2 ^ 64)) acc < 2 ^ 64
  | [], _, hacc => hacc
  | _ :: l, _, hacc =>
    foldl_min_lt h i l _ (lt_of_le_of_lt (min_le_left _ _) hacc)

theorem minhashValue_lt (h : Nat → String → Nat) (tokens : List String) (i : Nat) :
    minhashValue h tokens i < 2 ^ 64 :=
  foldl_min_lt h i tokens UINT64_MAX
    (Nat.sub_lt (pow_pos (by norm_num) 64) one_pos)

theorem decodeSigLE_generate_ne_nil (h : Nat → String → Nat) (tokens : List String)
    (n : Nat) (hn : 1 ≤ n) :
    decodeSigLE (Document.generate_minhash_signature h tokens n) ≠ [] := by
  rw [Document.generate_minhash_signature, decodeSigLE_flatMap]
  intro hnil
  have := congrArg List.length hnil
  simp [minhashValues_length] at this
  omega

/-! ### Helper lemmas on the Jaccard calculator -/

theorem calculate_eq_of_valid (sig1 sig2 : List Nat)
    (h1 : sig1.length % 8 = 0) (h2 : sig2.length % 8 = 0)
    (hne : decodeSigLE sig1 ≠ []) :
    JaccardCalculator.calculate_jaccard_similarity sig1 sig2 =
      some ((((decodeSigLE sig1).toFinset ∩ (decodeSigLE sig2).toFinset).card : ℚ) /
        (((decodeSigLE sig1).toFinset ∪ (decodeSigLE sig2).toFinset).card : ℚ)) := by
  rw [JaccardCalculator.calculate_jaccard_similarity, if_pos ⟨h1, h2⟩, if_neg]
  obtain ⟨x, hx⟩ := List.exists_mem_of_ne_nil _ hne
  exact Finset.card_ne_zero_of_mem (Finset.mem_union_left _ (List.mem_toFinset.mpr hx))

theorem calculate_isSome_of_valid (sig1 sig2 : List Nat)
    (h1 : sig1.length % 8 = 0) (h2 : sig2.length % 8 = 0)
    (hne : decodeSigLE sig1 ≠ []) :
    (JaccardCalculator.calculate_jaccard_similarity sig1 sig2).isSome := by
  rw [calculate_eq_of_valid sig1 sig2 h1 h2 hne]
  rfl

theorem filterDocs_eq_filter (sigQ : List Nat) (thr : ℚ) (docs : List Document)
    (hall : ∀ d ∈ docs,
      (JaccardCalculator.calculate_jaccard_similarity sigQ d.minhash_signature).isSome) :
    JaccardCalculator.filterDocs sigQ thr docs =
      some (docs.filter (fun d =>
        (JaccardCalculator.calculate_jaccard_similarity sigQ d.minhash_signature).any
          (fun s => decide (thr < s)))) := by
  induction docs with
  | nil => rfl
  | cons d rest ih =>
    obtain ⟨s, hs⟩ := Option.isSome_iff_exists.mp (hall d (List.mem_cons_self d rest))
    rw [JaccardCalculator.filterDocs, hs,
      ih (fun x hx => hall x (List.mem_cons_of_mem d hx)), List.filter_cons, hs]
    by_cases hts : thr < s
    · simp [hts]
    · simp [hts]

/-! ### Helper lemmas on the search post-processing -/

namespace MilvusMinHashLSHService

theorem filter_simEq_orderedInsert (q : ℚ) (a : SearchResult) (l : List SearchResult) :
    (List.orderedInsert simGe a l).filter (fun x => decide (x.similarity = q)) =
      if a.similarity = q then
        a :: l.filter (fun x => decide (x.similarity = q))
      else l.filter (fun x => decide (x.similarity = q)) := by
  induction l with
  | nil =>
    simp only [List.orderedInsert, List.filter]
    split_ifs <;> simp_all
  | cons b l ih =>
    by_cases hab : simGe a b
    · simp only [List.orderedInsert, if_pos hab, List.filter_cons]
      split_ifs <;> simp_all
    · have hnotb : a.similarity = q → ¬(b.similarity = q) := by
        intro ha hb
        exact hab (le_of_eq (hb.trans ha.symm))
      simp only [List.orderedInsert, if_neg hab, List.filter_cons, ih]
      split_ifs <;> simp_all

theorem filter_simEq_insertionSort (q : ℚ) (l : List SearchResult) :
    (List.insertionSort simGe l).filter (fun x => decide (x.similarity = q)) =
      l.filter (fun x => decide (x.similarity = q)) := by
  induction l with
  | nil => rfl
  | cons a l ih =>
    simp only [List.insertionSort, filter_simEq_orderedInsert, ih, List.filter_cons]
    split_ifs <;> simp_all

end MilvusMinHashLSHService

theorem minhashValues_empty_tokens (h : Nat → String → Nat) (n : Nat) :
    minhashValues h [] n = List.replicate n UINT64_MAX := by
  induction n with
  | zero => rfl
  | succ k ih =>
    rw [minhashValues, List.range_succ, List.map_append, ← minhashValues, ih,
      List.replicate_succ']
    rfl

/-! ### The claims -/

/-- C3: for every hash family and every `num_perm`, the signature generated
from the empty token sequence decodes, as big-endian unsigned 64-bit values,
to `num_perm` copies of the maximum representable 64-bit value
`2 ^ 64 - 1`, the hash functions' initialization value. -/
theorem generate_signature_empty_tokens (h : Nat → String → Nat) (n : Nat) :
    decodeSigBE (Document.generate_minhash_signature h [] n) =
      List.replicate n (2 ^ 64 - 1) := by
  rw [Document.generate_minhash_signature, decodeSigBE_flatMap,
    minhashValues_empty_tokens, List.map_replicate]
  have hval : beVal (beBytes64 UINT64_MAX) = 2 ^ 64 - 1 := by decide
  rw [hval]

/-- C5: for every hash family, token list and `num_perm`, the generated
signature is `num_perm * 8` bytes long and its `i`-th consecutive 8-byte
group is the big-endian encoding of the `i`-th hash function's minimum, an
unsigned 64-bit value. -/
theorem generate_signature_layout (h : Nat → String → Nat) (tokens : List String)
    (n : Nat) :
    (Document.generate_minhash_signature h tokens n).length = n * 8 ∧
    ∀ i, i < n →
      ((Document.generate_minhash_signature h tokens n).drop (8 * i)).take 8 =
          beBytes64 (minhashValue h tokens i) ∧
        minhashValue h tokens i < 2 ^ 64 := by
  refine ⟨generate_minhash_signature_length h tokens n,
    fun i hi => ⟨?_, minhashValue_lt h tokens i⟩⟩
  rw [Document.generate_minhash_signature,
    flatMap_beBytes64_segment (minhashValues h tokens n) i
      (by rw [minhashValues_length]; exact hi)]
  congr 1
  simp [minhashValues, List.getD_eq_getElem?_getD, List.getElem?_range, hi]

theorem generate_signature_layout_witness :
    (0 : Nat) < 1 ∧
    (((Document.generate_minhash_signature (fun _ _ => 0) ["ab"] 1).drop (8 * 0)).take 8 =
        beBytes64 (minhashValue (fun _ _ => 0) ["ab"] 0) ∧
      minhashValue (fun _ _ => 0) ["ab"] 0 < 2 ^ 64) :=
  ⟨Nat.zero_lt_one, (generate_signature_layout (fun _ _ => 0) ["ab"] 1).2 0 Nat.zero_lt_one⟩

/-- C6: signature generation is deterministic — two calls with identical
token sequences and identical `num_perm` (and the same hash family) produce
byte-identical signatures. -/
theorem generate_signature_deterministic (h : Nat → String → Nat)
    (tokens1 tokens2 : List String) (n1 n2 : Nat)
    (htok : tokens1 = tokens2) (hn : n1 = n2) :
    Document.generate_minhash_signature h tokens1 n1 =
      Document.generate_minhash_signature h tokens2 n2 := by
  rw [htok, hn]

theorem generate_signature_deterministic_witness :
    (["The", "quick"] : List String) = ["The", "quick"] ∧ (4 : Nat) = 4 ∧
    Document.generate_minhash_signature (fun i s => i + s.length) ["The", "quick"] 4 =
      Document.generate_minhash_signature (fun i s => i + s.length) ["The", "quick"] 4 :=
  ⟨rfl, rfl, generate_signature_deterministic _ _ _ _ _ rfl rfl⟩

/-- C2 (counterexample): on two well-formed signatures that decode to
unequal numbers of 64-bit values (1 versus 2, i.e. different `num_perm`),
`calculate_jaccard_similarity` returns the value `1 / 2` instead of
signalling an error. -/
theorem calculate_mismatched_num_perm_cex :
    JaccardCalculator.calculate_jaccard_similarity
        [1, 0, 0, 0, 0, 0, 0, 0]
        [1, 0, 0, 0, 0, 0, 0, 0, 2, 0, 0, 0, 0, 0, 0, 0] = some (1 / 2) ∧
    JaccardCalculator.calculate_jaccard_similarity
        [1, 0, 0, 0, 0, 0, 0, 0]
        [1, 0, 0, 0, 0, 0, 0, 0, 2, 0, 0, 0, 0, 0, 0, 0] ≠ none ∧
    (decodeSigLE [1, 0, 0, 0, 0, 0, 0, 0]).length ≠
      (decodeSigLE [1, 0, 0, 0, 0, 0, 0, 0, 2, 0, 0, 0, 0, 0, 0, 0]).length := by
  have heq := calculate_eq_of_valid [1, 0, 0, 0, 0, 0, 0, 0]
    [1, 0, 0, 0, 0, 0, 0, 0, 2, 0, 0, 0, 0, 0, 0, 0] (by decide) (by decide) (by decide)
  have hinter : ((decodeSigLE [1, 0, 0, 0, 0, 0, 0, 0]).toFinset ∩
      (decodeSigLE [1, 0, 0, 0, 0, 0, 0, 0, 2, 0, 0, 0, 0, 0, 0, 0]).toFinset).card = 1 := by
    decide
  have hunion : ((decodeSigLE [1, 0, 0, 0, 0, 0, 0, 0]).toFinset ∪
      (decodeSigLE [1, 0, 0, 0, 0, 0, 0, 0, 2, 0, 0, 0, 0, 0, 0, 0]).toFinset).card = 2 := by
    decide
  rw [hinter, hunion] at heq
  refine ⟨by rw [heq]; norm_num, by rw [heq]; exact Option.some_ne_none _, by decide⟩

/-- C2 (amended): `calculate_jaccard_similarity` performs no `num_perm`
check: for any two byte buffers whose lengths are multiples of 8, the first
decoding to at least one value, it returns the set-intersection size over the
set-union size of the decoded 64-bit values — also when the two lengths
differ. -/
theorem calculate_no_num_perm_check (sig1 sig2 : List Nat)
    (h1 : sig1.length % 8 = 0) (h2 : sig2.length % 8 = 0)
    (hne : decodeSigLE sig1 ≠ []) :
    JaccardCalculator.calculate_jaccard_similarity sig1 sig2 =
      some ((((decodeSigLE sig1).toFinset ∩ (decodeSigLE sig2).toFinset).card : ℚ) /
        (((decodeSigLE sig1).toFinset ∪ (decodeSigLE sig2).toFinset).card : ℚ)) :=
  calculate_eq_of_valid sig1 sig2 h1 h2 hne

theorem calculate_no_num_perm_check_witness :
    (([5, 0, 0, 0, 0, 0, 0, 0] : List Nat).length % 8 = 0 ∧
      ([5, 0, 0, 0, 0, 0, 0, 0, 6, 0, 0, 0, 0, 0, 0, 0,
          7, 0, 0, 0, 0, 0, 0, 0] : List Nat).length % 8 = 0 ∧
      decodeSigLE [5, 0, 0, 0, 0, 0, 0, 0] ≠ []) ∧
    JaccardCalculator.calculate_jaccard_similarity [5, 0, 0, 0, 0, 0, 0, 0]
        [5, 0, 0, 0, 0, 0, 0, 0, 6, 0, 0, 0, 0, 0, 0, 0, 7, 0, 0, 0, 0, 0, 0, 0] =
      some ((((decodeSigLE [5, 0, 0, 0, 0, 0, 0, 0]).toFinset ∩
            (decodeSigLE [5, 0, 0, 0, 0, 0, 0, 0, 6, 0, 0, 0, 0, 0, 0, 0,
              7, 0, 0, 0, 0, 0, 0, 0]).toFinset).card : ℚ) /
        (((decodeSigLE [5, 0, 0, 0, 0, 0, 0, 0]).toFinset ∪
            (decodeSigLE [5, 0, 0, 0, 0, 0, 0, 0, 6, 0, 0, 0, 0, 0, 0, 0,
              7, 0, 0, 0, 0, 0, 0, 0]).toFinset).card : ℚ)) :=
  ⟨⟨by decide, by decide, by decide⟩,
    calculate_no_num_perm_check _ _ (by decide) (by decide) (by decide)⟩

/-- C9: the similarity computed by `calculate_jaccard_similarity` depends
only on the sets of decoded 64-bit values of its two arguments: reordering
the 8-byte groups or repeating values inside either signature leaves the
result unchanged. -/
theorem calculate_depends_only_on_value_sets (s1 s2 t1 t2 : List Nat)
    (h1 : s1.length % 8 = 0) (h2 : s2.length % 8 = 0)
    (h3 : t1.length % 8 = 0) (h4 : t2.length % 8 = 0)
    (e1 : (decodeSigLE s1).toFinset = (decodeSigLE t1).toFinset)
    (e2 : (decodeSigLE s2).toFinset = (decodeSigLE t2).toFinset) :
    JaccardCalculator.calculate_jaccard_similarity s1 s2 =
      JaccardCalculator.calculate_jaccard_similarity t1 t2 := by
  unfold JaccardCalculator.calculate_jaccard_similarity
  rw [if_pos (And.intro h1 h2), if_pos (And.intro h3 h4), e1, e2]

theorem calculate_depends_only_on_value_sets_witness :
    (([1, 0, 0, 0, 0, 0, 0, 0, 2, 0, 0, 0, 0, 0, 0, 0] : List Nat).length % 8 = 0 ∧
      ([3, 0, 0, 0, 0, 0, 0, 0] : List Nat).length % 8 = 0 ∧
      ([2, 0, 0, 0, 0, 0, 0, 0, 1, 0, 0, 0, 0, 0, 0, 0,
          1, 0, 0, 0, 0, 0, 0, 0] : List Nat).length % 8 = 0 ∧
      ([3, 0, 0, 0, 0, 0, 0, 0, 3, 0, 0, 0, 0, 0, 0, 0] : List Nat).length % 8 = 0 ∧
      (decodeSigLE [1, 0, 0, 0, 0, 0, 0, 0, 2, 0, 0, 0, 0, 0, 0, 0]).toFinset =
        (decodeSigLE [2, 0, 0, 0, 0, 0, 0, 0, 1, 0, 0, 0, 0, 0, 0, 0,
          1, 0, 0, 0, 0, 0, 0, 0]).toFinset ∧
      (decodeSigLE [3, 0, 0, 0, 0, 0, 0, 0]).toFinset =
        (decodeSigLE [3, 0, 0, 0, 0, 0, 0, 0, 3, 0, 0, 0, 0, 0, 0, 0]).toFinset) ∧
    JaccardCalculator.calculate_jaccard_similarity
        [1, 0, 0, 0, 0, 0, 0, 0, 2, 0, 0, 0, 0, 0, 0, 0] [3, 0, 0, 0, 0, 0, 0, 0] =
      JaccardCalculator.calculate_jaccard_similarity
        [2, 0, 0, 0, 0, 0, 0, 0, 1, 0, 0, 0, 0, 0, 0, 0, 1, 0, 0, 0, 0, 0, 0, 0]
        [3, 0, 0, 0, 0, 0, 0, 0, 3, 0, 0, 0, 0, 0, 0, 0] :=
  ⟨⟨by decide, by decide, by decide, by decide, by decide, by decide⟩,
    calculate_depends_only_on_value_sets _ _ _ _ (by decide) (by decide) (by decide)
      (by decide) (by decide) (by decide)⟩

/-- C4: for a positive `num_perm` and well-formed candidate signatures,
`filter_by_jaccard_similarity` returns exactly the sub-list of candidates
whose similarity to the query signature strictly exceeds the threshold, in
the candidates' original input order. -/
theorem filter_by_jaccard_similarity_spec (h : Nat → String → Nat) (n : Nat)
    (text : String) (docs : List Document) (thr : ℚ) (hn : 1 ≤ n)
    (hdocs : ∀ d ∈ docs, d.minhash_signature.length % 8 = 0) :
    JaccardCalculator.filter_by_jaccard_similarity h n text docs thr =
      some (docs.filter (fun d =>
        (JaccardCalculator.calculate_jaccard_similarity
            (Document.generate_minhash_signature h (Document.split text) n)
            d.minhash_signature).any (fun s => decide (thr < s)))) :=
  filterDocs_eq_filter _ thr docs (fun d hd =>
    calculate_isSome_of_valid _ _
      (by rw [generate_minhash_signature_length]; omega)
      (hdocs d hd)
      (decodeSigLE_generate_ne_nil h (Document.split text) n hn))

theorem filter_by_jaccard_similarity_spec_witness :
    ((1 : Nat) ≤ 1 ∧
      ∀ d ∈ [Document.mk 1 "d1" [0, 0, 0, 0, 0, 0, 0, 0] "x"],
        d.minhash_signature.length % 8 = 0) ∧
    JaccardCalculator.filter_by_jaccard_similarity (fun _ _ => 0) 1 "hello"
        [Document.mk 1 "d1" [0, 0, 0, 0, 0, 0, 0, 0] "x"] (1 / 2) =
      some ([Document.mk 1 "d1" [0, 0, 0, 0, 0, 0, 0, 0] "x"].filter (fun d =>
        (JaccardCalculator.calculate_jaccard_similarity
            (Document.generate_minhash_signature (fun _ _ => 0)
              (Document.split "hello") 1)
            d.minhash_signature).any (fun s => decide ((1 : ℚ) / 2 < s)))) :=
  ⟨⟨le_refl 1, by decide⟩,
    filter_by_jaccard_similarity_spec _ 1 "hello" _ _ (le_refl 1) (by decide)⟩

/-- C1 (counterexample): on the content `|---|---|`, `from_text` does not
apply the section-4.1 Markdown pipeline: the tokens actually used come from
`Document.split`, which keeps the table-separator row as one token, while
the full pipeline (`split_by_jieba_v2`) drops it and yields no token at all;
in particular the stored `token_set` differs from the space-join of the
deduplicated pipeline tokens. -/
theorem from_text_skips_markdown_pipeline_cex :
    Document.split "|---|---|" = ["|---|---|"] ∧
    Document.split_by_jieba_v2 (fun _ => []) "|---|---|" = [] ∧
    (Document.from_text (fun _ _ => 0) 1 "doc" "|---|---|" 2).token_set = "|---|---|" ∧
    (Document.from_text (fun _ _ => 0) 1 "doc" "|---|---|" 2).token_set ≠
      String.intercalate " "
        ((Document.split_by_jieba_v2 (fun _ => []) "|---|---|").eraseDups) := by
  refine ⟨?_, ?_, ?_, ?_⟩ <;> decide

/-- C1 (amended): `from_text` builds its signature by applying
`Document.split` — sentence segmentation only (cut after every
Chinese/English clause punctuation mark or whitespace character, strip, drop
empties), with none of the Markdown stripping of section 4.1 — generates the
MinHash signature from exactly those tokens, and sets `token_set` to the
deduplicated tokens joined by single spaces. -/
theorem from_text_composes_simple_split (h : Nat → String → Nat) (doc_id : Int)
    (doc_name : String) (content : String) (n : Nat) :
    Document.from_text h doc_id doc_name content n =
      ⟨doc_id, doc_name,
        Document.generate_minhash_signature h (Document.split_sentences content) n,
        String.intercalate " " (Document.split_sentences content).eraseDups⟩ :=
  rfl

/-- C8: tokenizing the pure Markdown table
`| a | b |` / `|---|---|` / `| 1 | 2 |` yields exactly the tokens
`a`, `b`, `1`, `2` — the separator row is dropped entirely and no pipe or
dash character survives in any token — for every choice of the CJK
segmenter, which is never consulted on this input. -/
theorem tokenize_markdown_table (jieba_lcut : String → List String) :
    Document.split_by_jieba_v2 jieba_lcut "| a | b |\n|---|---|\n| 1 | 2 |" =
      ["a", "b", "1", "2"] ∧
    (Document.split_by_jieba_v2 jieba_lcut "| a | b |\n|---|---|\n| 1 | 2 |").all
      (fun t => !t.toList.contains '|' && !t.toList.contains '-') = true := by
  have hval : Document.split_by_jieba_v2 jieba_lcut "| a | b |\n|---|---|\n| 1 | 2 |" =
      ["a", "b", "1", "2"] := rfl
  exact ⟨hval, by rw [hval]; decide⟩

/-- C7: the candidate list returned by `search` is sorted by the
`similarity` field in descending order, and hits with equal similarity keep
their backend arrival order: filtering the output by any similarity value
gives the same sub-list, in the same order, as filtering the arrival-order
results. -/
theorem search_sorted_desc_stable (hits : List MilvusMinHashLSHService.Hit) :
    List.Sorted MilvusMinHashLSHService.simGe (MilvusMinHashLSHService.search hits) ∧
    ∀ q : ℚ,
      (MilvusMinHashLSHService.search hits).filter
          (fun r => decide (r.similarity = q)) =
        (hits.map MilvusMinHashLSHService.mkResult).filter
          (fun r => decide (r.similarity = q)) :=
  ⟨List.sorted_insertionSort _ _,
    fun q => MilvusMinHashLSHService.filter_simEq_insertionSort q _⟩

/-- C10: every returned hit carries `similarity` equal to the backend
distance rounded to 3 decimal places while `distance` keeps the raw value,
the output is a permutation of the per-hit records in that shape, and the
descending ordering is computed over the rounded similarity — witness the
concrete pair of distances `0.0001` and `0.0003`, which both round to `0`,
so the output keeps arrival order and is not sorted by the raw distance. -/
theorem search_rounds_similarity_and_sorts_by_it :
    (∀ hits : List MilvusMinHashLSHService.Hit,
      List.Perm (MilvusMinHashLSHService.search hits)
          (hits.map MilvusMinHashLSHService.mkResult) ∧
        (MilvusMinHashLSHService.search hits).map (fun r => r.similarity) =
          ((MilvusMinHashLSHService.search hits).map (fun r => r.distance)).map
            MilvusMinHashLSHService.round3 ∧
        List.Sorted MilvusMinHashLSHService.simGe
          (MilvusMinHashLSHService.search hits)) ∧
    (MilvusMinHashLSHService.search
        [⟨1 / 10000, 1, "a", "t"⟩, ⟨3 / 10000, 2, "b", "u"⟩]).map
      (fun r => r.distance) = [1 / 10000, 3 / 10000] ∧
    ¬ List.Sorted MilvusMinHashLSHService.distGe
        (MilvusMinHashLSHService.search
          [⟨1 / 10000, 1, "a", "t"⟩, ⟨3 / 10000, 2, "b", "u"⟩]) := by
  have hr1 : MilvusMinHashLSHService.round3 (1 / 10000) = 0 := by
    have hf : ⌊((1 : ℚ) / 10000 * 1000)⌋ = 0 := by
      rw [Int.floor_eq_iff]; norm_num
    rw [MilvusMinHashLSHService.round3, MilvusMinHashLSHService.roundHalfEven, hf]
    norm_num
  have hr3 : MilvusMinHashLSHService.round3 (3 / 10000) = 0 := by
    have hf : ⌊((3 : ℚ) / 10000 * 1000)⌋ = 0 := by
      rw [Int.floor_eq_iff]; norm_num
    rw [MilvusMinHashLSHService.round3, MilvusMinHashLSHService.roundHalfEven, hf]
    norm_num
  have hconc : MilvusMinHashLSHService.search
      [⟨1 / 10000, 1, "a", "t"⟩, ⟨3 / 10000, 2, "b", "u"⟩] =
      [⟨0, 1 / 10000, 1, "a", "t"⟩, ⟨0, 3 / 10000, 2, "b", "u"⟩] := by
    simp only [MilvusMinHashLSHService.search, List.map, MilvusMinHashLSHService.mkResult,
      hr1, hr3, List.insertionSort, List.orderedInsert, MilvusMinHashLSHService.simGe]
    norm_num
  refine ⟨fun hits => ⟨List.perm_insertionSort _ _, ?_, List.sorted_insertionSort _ _⟩,
    ?_, ?_⟩
  · rw [List.map_map]
    apply List.map_congr_left
    intro x hx
    have hx2 : x ∈ hits.map MilvusMinHashLSHService.mkResult := by
      simpa [MilvusMinHashLSHService.search] using hx
    obtain ⟨g, _, rfl⟩ := List.mem_map.mp hx2
    rfl
  · rw [hconc]
    rfl
  · rw [hconc]
    simp only [List.sorted_cons, List.mem_cons, List.mem_singleton,
      MilvusMinHashLSHService.distGe]
    intro hsort
    have := hsort.1 ⟨0, 3 / 10000, 2, "b", "u"⟩ (by simp)
    norm_num at this

end DupDocHunter
